import Mathlib

/-!
# Verification of `toml_fmt_common` (tox-dev/toml-fmt-py-common)

Shallow embedding of `src/toml_fmt_common/__init__.py` and proofs about it.

The program is a CLI harness for TOML formatters.  The parts embedded here:

* the parsed-TOML value model (what `tomllib.loads` returns),
* the option namespace (`FmtNamespace` and formatter-specific extensions),
  modelled as an association list from field names to values, matching the
  source's dynamic `vars(...)` introspection,
* the config-override resolution of `_cli_args` (lines 144-157): walking
  `info.override_cli_from_section` through the parsed document, `deepcopy`-ing
  the base namespace, and overriding non-fixed fields from the found section,
* an explicit heap (object identity) model of the `deepcopy` + `setattr`
  sequence, used for the aliasing/no-mutation guarantees,
* `_toml_path_creator` over an abstract filesystem,
* `_handle_one` and `run` with output/file side effects reified as a list of
  events, with the external collaborators `info.format` and
  `difflib.unified_diff` as function parameters,
* `_color_diff` and the color constants.
-/

namespace TomlFmt

/-- A parsed TOML value, as produced by `tomllib.loads` (dicts become keyed
mappings, here association lists).  Floats and dates are irrelevant to the
claims and omitted. -/
inductive Toml where
  | str (s : String)
  | int (n : Int)
  | bool (b : Bool)
  | arr (xs : List Toml)
  | table (kvs : List (String × Toml))

/-- A value stored in an options namespace: either a raw TOML value assigned
from an override section without conversion, or one of the shapes produced by
command-line parsing / registered type-conversion functions. -/
inductive Val where
  | vtoml (t : Toml)
  | vpaths (ps : List (Option (List String)))
  | vbool (b : Bool)
  | vint (n : Int)
  | vstrs (ss : List String)

/-- Lookup in a parsed TOML table (`part in config` / `config[part]`). -/
def lookupToml (k : String) : List (String × Toml) → Option Toml
  | [] => none
  | (k', v) :: rest => if k' = k then some v else lookupToml k rest

/-- An options namespace (`FmtNamespace` instance) as the source manipulates
it: `vars(...)` is a mapping from field names to values. -/
abbrev Ns := List (String × Val)

/-- Attribute read on a namespace (`getattr` / `vars(...)[k]`). -/
def getVal (k : String) : Ns → Option Val
  | [] => none
  | (k', v) :: rest => if k' = k then some v else getVal k rest

/-- The fixed fields excluded from overriding in `_cli_args` line 153:
`set(vars(override_opt).keys()) - {"inputs", "stdout", "check", "no_print_diff"}`. -/
def fixedNames : List String := ["inputs", "stdout", "check", "no_print_diff"]

/-- The per-flag type-conversion table built in `_build_cli` line 214:
`{a.dest: a.type for a in format_group._actions if a.type and a.dest}`.
`none` means no conversion function was registered for the field. -/
abbrev Conv := String → Option (Toml → Val)

/-- Line 156: `converted = type_conversion[key](raw) if key in type_conversion else raw`
(line 156). -/
def convertValue (conv : Conv) (key : String) (raw : Toml) : Val :=
  match conv key with
  | some f => f raw
  | none => Val.vtoml raw

/-- One step of the override loop of `_cli_args` lines 153-157: a fixed field
is left alone; a non-fixed field whose name is a key of the found section is
assigned the (possibly converted) section value; any other field keeps its
current value. -/
def overrideField (conv : Conv) (sec : List (String × Toml))
    (kv : String × Val) : String × Val :=
  if kv.1 ∈ fixedNames then kv
  else
    match lookupToml kv.1 sec with
    | some raw => (kv.1, convertValue conv kv.1 raw)
    | none => kv

/-- The override loop of `_cli_args` lines 153-157.  The source iterates the
key set of `vars(override_opt)` minus the fixed names and `setattr`s each key
independently, which on the association-list view is a pointwise map. -/
def applyOverrides (conv : Conv) (sec : List (String × Toml)) (ns : Ns) : Ns :=
  ns.map (overrideField conv sec)

/-- The section walk of `_cli_args` lines 144-150: starting from the parsed
document, pop path segments one at a time; if the current value is not a dict
or the segment key is absent, the result is `None` (section not found). -/
def walkSection : Toml → List String → Option Toml
  | c, [] => some c
  | Toml.table kvs, p :: rest =>
      match lookupToml p kvs with
      | some v => walkSection v rest
      | none => none
  | _, _ :: _ => none

/-- Whether the walk ended on a dict (`isinstance(config, dict)`, line 152). -/
def foundTable : Option Toml → Bool
  | some (Toml.table _) => true
  | _ => false

/-- Value-level result of config resolution for one input: the effective
options namespace (`override_opt` after lines 151-157). -/
def resolveOpt (conv : Conv) (path : List String) (doc : Toml) (base : Ns) : Ns :=
  match walkSection doc path with
  | some (Toml.table sec) => applyOverrides conv sec base
  | _ => base

/-! ## Object-identity model of the resolution

Python namespaces are heap objects; `override_opt = deepcopy(info.opt)`
allocates a fresh object and the subsequent `setattr` calls mutate only that
object.  To state the aliasing guarantees (the base options are never mutated,
and the clone is a distinct instance) we model a heap of namespace objects
addressed by natural-number references. -/

/-- A heap of namespace objects.  A reference is an index into `cells`. -/
structure Heap where
  cells : List Ns

/-- Dereference (reads an empty namespace for a dangling reference). -/
def Heap.read (h : Heap) (r : Nat) : Ns := h.cells.getD r []

/-- Allocate a fresh object holding value `v`; returns the new heap and the
fresh reference. -/
def Heap.alloc (h : Heap) (v : Ns) : Heap × Nat :=
  (⟨h.cells ++ [v]⟩, h.cells.length)

/-- Overwrite the object at reference `r` (the effect of `setattr` calls). -/
def Heap.write (h : Heap) (r : Nat) (v : Ns) : Heap :=
  ⟨h.cells.set r v⟩

/-- The resolution for one input as the source performs it on the heap
(`_cli_args` lines 144-157): walk the override path, `deepcopy` the base
namespace at `rb` into a fresh object, and, when the walk ended on a dict,
mutate the fresh object field by field.  Returns the heap and the reference
to `override_opt`. -/
def cli_resolve (conv : Conv) (path : List String) (doc : Toml)
    (h : Heap) (rb : Nat) : Heap × Nat :=
  let sec := walkSection doc path
  let (h1, ro) := h.alloc (h.read rb)
  match sec with
  | some (Toml.table kvs) => (h1.write ro (applyOverrides conv kvs (h1.read ro)), ro)
  | _ => (h1, ro)

/-! ## Path validation (`_toml_path_creator`, lines 225-251)

The filesystem is an external collaborator; it is modelled as an abstract
record of the queries the source makes (`is_dir`, `exists`, `is_file`,
`os.access(.., R_OK | W_OK)`) plus the current directory used by
`Path.absolute()`.  Paths are lists of components. -/

/-- Path components of a string path, as `pathlib` normalizes separators:
split on `/` and drop empty components. -/
def pathComponents (s : String) : List String :=
  (s.splitOn "/").filter (fun c => c ≠ "")

/-- Model of `Path(argument).absolute()`: absolute arguments stand alone, relative ones
are anchored at the current working directory (no `..` normalization). -/
def absolutePath (cwd : List String) (arg : String) : List String :=
  if arg.startsWith "/" then pathComponents arg else cwd ++ pathComponents arg

/-- Abstract filesystem state: the current directory and the predicates the
validator queries. -/
structure FS where
  cwd : List String
  is_dir : List String → Bool
  path_exists : List String → Bool
  is_file : List String → Bool
  readable : List String → Bool
  writable : List String → Bool

/-- The four `ArgumentTypeError` messages of `_toml_path_creator`. -/
inductive PathError where
  | pathNotFound   -- "path does not exist"
  | notAFile       -- "path is not a file"
  | cannotRead     -- "cannot read path"
  | cannotWrite    -- "cannot write path"
deriving DecidableEq

/-- The path the validator checks: the absolute form of the argument, with the
formatter's default filename appended when that path is a directory. -/
def resolvedPath (fs : FS) (filename arg : String) : List String :=
  let p := absolutePath fs.cwd arg
  if fs.is_dir p then p ++ [filename] else p

/-- Model of `_toml_path_creator` (lines 225-251).  `ok none` is the stdin sentinel
(`-`); `ok (some p)` is a validated path. -/
def toml_path_creator (fs : FS) (filename arg : String) :
    Except PathError (Option (List String)) :=
  if arg = "-" then Except.ok none
  else
    let path := resolvedPath fs filename arg
    if ¬ fs.path_exists path then Except.error PathError.pathNotFound
    else if ¬ fs.is_file path then Except.error PathError.notAFile
    else if ¬ fs.readable path then Except.error PathError.cannotRead
    else if ¬ fs.writable path then Except.error PathError.cannotWrite
    else Except.ok (some path)

/-! ## Reporter (`_handle_one`, `_color_diff`, lines 254-299) -/

/-- ANSI escape `"\u001b[32m"` (line 282). -/
def GREEN : String := "\u001b[32m"

/-- ANSI escape `"\u001b[31m"` (line 283). -/
def RED : String := "\u001b[31m"

/-- ANSI escape `"\u001b[0m"` (line 284). -/
def RESET : String := "\u001b[0m"

/-- Python's `line.startswith(pre)`: the characters of `pre` are a prefix of
the characters of `line`. -/
def lineStartsWith (line pre : String) : Bool := pre.data.isPrefixOf line.data

/-- Model of `_color_diff` (lines 287-299): wrap `+` lines in green, `-` lines in red,
leave everything else untouched. -/
def color_diff (diff : List String) : List String :=
  diff.map fun line =>
    if lineStartsWith line "+" then GREEN ++ line ++ RESET
    else if lineStartsWith line "-" then RED ++ line ++ RESET
    else line

/-- Model of `str.splitlines` on the line boundaries that occur in TOML text
(`"\n"`, `"\r\n"`, `"\r"`); terminators are dropped and a trailing terminator
produces no extra empty line. -/
def splitlinesAux : List Char → List Char → List String
  | [], [] => []
  | [], acc => [String.mk acc.reverse]
  | '\r' :: '\n' :: rest, acc => String.mk acc.reverse :: splitlinesAux rest []
  | '\n' :: rest, acc => String.mk acc.reverse :: splitlinesAux rest []
  | '\r' :: rest, acc => String.mk acc.reverse :: splitlinesAux rest []
  | c :: rest, acc => splitlinesAux rest (c :: acc)

/-- Line 272: `before.splitlines()` / `formatted.splitlines()`. -/
def splitlines (s : String) : List String := splitlinesAux s.data []

/-- Lines 266-269: `str(path.relative_to(Path.cwd()))` when the current
directory's components are a prefix of the path's, `str(path)` (absolute)
otherwise.  `pathlib` renders the empty relative path as `"."` and an
absolute path with a leading `/`. -/
def relName (cwd p : List String) : String :=
  if cwd <+: p then
    match p.drop cwd.length with
    | [] => "."
    | rest => String.intercalate "/" rest
  else "/" ++ String.intercalate "/" p

/-- Model of `_Config` (lines 117-126): per-input bundle built by `_cli_args`.
`toml_filename = none` is the stdin sentinel. -/
structure Config where
  toml_filename : Option (List String)
  toml : String
  stdout : Bool
  check : Bool
  no_print_diff : Bool
  opt : Ns

/-- An observable side effect of `_handle_one`: `print(s, end="")`, a file
write, or `print(s)` (which appends a newline). -/
inductive Effect where
  | printStdout (s : String)
  | writeFile (path : List String) (s : String)
  | printLine (s : String)
deriving DecidableEq

/-- Model of `_handle_one` (lines 254-279), with the formatter (`info.format`) and
`difflib.unified_diff` (applied to the two splitlines lists and the
`fromfile = tofile` name) as external collaborators.  Returns `changed`
together with the emitted effects, in order.

The source binds `diff = difflib.unified_diff(...)` when `changed` and tests
`if diff:`; `unified_diff` returns a generator object, which is truthy even
when it yields no lines, so that test is equivalent to `if changed:` and an
empty diff still reaches `print("\n".join(diff))`. -/
def handle_one (fmt : String → Ns → String)
    (udiff : List String → List String → String → List String)
    (cwd : List String) (c : Config) : Bool × List Effect :=
  let formatted := fmt c.toml c.opt
  let before := c.toml
  let changed : Bool := before != formatted
  if c.toml_filename.isNone || c.stdout then
    (changed, [Effect.printStdout formatted])
  else
    let fn := c.toml_filename.getD []
    let writes :=
      if changed && !c.check then [Effect.writeFile fn formatted] else []
    if c.no_print_diff then (changed, writes)
    else
      let name := relName cwd fn
      let diff := if changed then udiff (splitlines before) (splitlines formatted) name else []
      let out :=
        if changed then
          [Effect.printLine (String.intercalate "\n" (color_diff diff))]
        else
          [Effect.printLine ("no change for " ++ name)]
      (changed, writes ++ out)

/-- Model of `run` (lines 104-114) after `_cli_args` produced the configs: handle each
input in order and exit `1` iff any input changed. -/
def run (fmt : String → Ns → String)
    (udiff : List String → List String → String → List String)
    (cwd : List String) (configs : List Config) : Nat :=
  let results := configs.map fun c => (handle_one fmt udiff cwd c).1
  if results.any (fun b => b) then 1 else 0

/-! ## Claims about the resolution's object identity (C1, C2) -/

/-- For a valid base reference, resolving one input's configuration returns
the clone's reference, never `rb` itself. -/
theorem cli_resolve_shape (conv : Conv) (path : List String) (doc : Toml)
    (h : Heap) (rb : Nat) :
    (cli_resolve conv path doc h rb).2 = h.cells.length := by
  cases hw : walkSection doc path with
  | none => simp [cli_resolve, hw, Heap.alloc]
  | some t => cases t <;> simp [cli_resolve, hw, Heap.alloc, Heap.write]

/-- C2: the base options object is never mutated by config resolution — the
value at the base reference after `cli_resolve` is the value before. -/
theorem cli_resolve_preserves_base (conv : Conv) (path : List String) (doc : Toml)
    (h : Heap) (rb : Nat) (hrb : rb < h.cells.length) :
    ((cli_resolve conv path doc h rb).1).read rb = h.read rb := by
  have hne : h.cells.length ≠ rb := (Nat.ne_of_lt hrb).symm
  cases hw : walkSection doc path with
  | none =>
    simp [cli_resolve, hw, Heap.alloc, Heap.read, List.getElem?_append_left hrb]
  | some t =>
    cases t <;>
      simp [cli_resolve, hw, Heap.alloc, Heap.write, Heap.read,
        List.getElem?_set_ne hne, List.getElem?_append_left hrb]

/-- C1: when the override-section walk fails, the effective options are a
clone of the base: field-for-field equal, at a distinct reference, and a
write through either reference leaves the value behind the other reference
unchanged. -/
theorem cli_resolve_not_found_clone (conv : Conv) (path : List String)
    (doc : Toml) (h : Heap) (rb : Nat) (hrb : rb < h.cells.length)
    (hfail : foundTable (walkSection doc path) = false) :
    ((cli_resolve conv path doc h rb).1).read ((cli_resolve conv path doc h rb).2) =
        h.read rb ∧
    (cli_resolve conv path doc h rb).2 ≠ rb ∧
    (∀ v, (((cli_resolve conv path doc h rb).1).write
        ((cli_resolve conv path doc h rb).2) v).read rb =
        ((cli_resolve conv path doc h rb).1).read rb) ∧
    (∀ v, (((cli_resolve conv path doc h rb).1).write rb v).read
        ((cli_resolve conv path doc h rb).2) =
        ((cli_resolve conv path doc h rb).1).read
          ((cli_resolve conv path doc h rb).2)) := by
  have hne : h.cells.length ≠ rb := (Nat.ne_of_lt hrb).symm
  have hres : cli_resolve conv path doc h rb =
      (⟨h.cells ++ [h.read rb]⟩, h.cells.length) := by
    cases hw : walkSection doc path with
    | none => simp [cli_resolve, hw, Heap.alloc]
    | some t =>
      cases t <;> simp_all [cli_resolve, foundTable, Heap.alloc]
  rw [hres]
  refine ⟨?_, hne, ?_, ?_⟩
  · simp [Heap.read, List.getElem?_concat_length]
  · intro v
    simp [Heap.read, Heap.write, List.getElem?_set_ne hne,
      List.getElem?_append_left hrb]
  · intro v
    simp [Heap.read, Heap.write, List.getElem?_set_ne (fun e => hne e.symm)]

/-! Concrete data used by the witnesses, mirroring the repository's own test
formatter `Dumb` (override path `("start", "sub")`, extra string field
`extra`, tuple field `tuple_magic`). -/

/-- A concrete parsed base namespace (all defaults, `extra = 'E'`). -/
def nsW : Ns :=
  [("inputs", Val.vpaths [some ["home", "dumb.toml"]]),
   ("stdout", Val.vbool false), ("check", Val.vbool false),
   ("no_print_diff", Val.vbool false), ("column_width", Val.vint 120),
   ("indent", Val.vint 2), ("extra", Val.vtoml (Toml.str "E"))]

/-- A conversion table registering no conversion function. -/
def convW : Conv := fun _ => none

/-- A heap holding the base namespace at reference `0`. -/
def heapW : Heap := ⟨[nsW]⟩

/-- Document `start = 'B'`: walking `("start", "sub")` hits a non-mapping segment. -/
def docW : Toml := Toml.table [("start", Toml.str "B")]

/-- Witness for the C2 theorem at a concrete heap and document. -/
theorem cli_resolve_preserves_base_witness :
    0 < heapW.cells.length ∧
    ((cli_resolve convW ["start", "sub"] docW heapW 0).1).read 0 = heapW.read 0 :=
  ⟨by decide,
    cli_resolve_preserves_base convW ["start", "sub"] docW heapW 0 (by decide)⟩

/-- Witness for the C1 theorem at a concrete heap and a document on which the
section walk fails. -/
theorem cli_resolve_not_found_clone_witness :
    (0 < heapW.cells.length ∧
      foundTable (walkSection docW ["start", "sub"]) = false) ∧
    ((cli_resolve convW ["start", "sub"] docW heapW 0).1).read
        ((cli_resolve convW ["start", "sub"] docW heapW 0).2) = heapW.read 0 ∧
    (((cli_resolve convW ["start", "sub"] docW heapW 0).1).write
        ((cli_resolve convW ["start", "sub"] docW heapW 0).2) []).read 0 =
      ((cli_resolve convW ["start", "sub"] docW heapW 0).1).read 0 :=
  ⟨⟨by decide, by decide⟩,
    (cli_resolve_not_found_clone convW ["start", "sub"] docW heapW 0
      (by decide) (by decide)).1,
    (cli_resolve_not_found_clone convW ["start", "sub"] docW heapW 0
      (by decide) (by decide)).2.2.1 []⟩

/-! ## Fixed fields and override values (C3, C4, C10) -/

/-- Overriding a field never changes its name. -/
theorem overrideField_fst (conv : Conv) (sec : List (String × Toml))
    (kv : String × Val) : (overrideField conv sec kv).1 = kv.1 := by
  unfold overrideField
  split
  · rfl
  · split <;> rfl

/-- A fixed field is left untouched by the override step. -/
theorem overrideField_fixed (conv : Conv) (sec : List (String × Toml))
    (kv : String × Val) (h : kv.1 ∈ fixedNames) :
    overrideField conv sec kv = kv := by
  simp [overrideField, h]

/-- A non-fixed field named in the section is set to its converted value. -/
theorem overrideField_hit (conv : Conv) (sec : List (String × Toml))
    (kv : String × Val) (raw : Toml) (h : kv.1 ∉ fixedNames)
    (hs : lookupToml kv.1 sec = some raw) :
    overrideField conv sec kv = (kv.1, convertValue conv kv.1 raw) := by
  simp [overrideField, h, hs]

/-- The override loop unfolds pointwise on a cons cell. -/
theorem applyOverrides_cons (conv : Conv) (sec : List (String × Toml))
    (kv : String × Val) (l : Ns) :
    applyOverrides conv sec (kv :: l) =
      overrideField conv sec kv :: applyOverrides conv sec l := rfl

/-- Attribute read skips a cons cell with a different field name. -/
theorem getVal_cons_ne (k : String) (kv : String × Val) (l : Ns)
    (h : kv.1 ≠ k) : getVal k (kv :: l) = getVal k l := by
  obtain ⟨k1, v1⟩ := kv
  have h' : k1 ≠ k := h
  simp [getVal, h']

/-- Attribute read hits a cons cell with the looked-up field name. -/
theorem getVal_cons_eq (k : String) (v1 : Val) (l : Ns) :
    getVal k ((k, v1) :: l) = some v1 := by
  simp [getVal]

/-- The override loop never touches a fixed field of the namespace. -/
theorem getVal_applyOverrides_fixed (conv : Conv) (sec : List (String × Toml))
    (k : String) (hk : k ∈ fixedNames) :
    ∀ base : Ns, getVal k (applyOverrides conv sec base) = getVal k base := by
  intro base
  induction base with
  | nil => rfl
  | cons kv rest ih =>
    obtain ⟨k1, v1⟩ := kv
    rw [applyOverrides_cons]
    by_cases hke : k1 = k
    · subst hke
      rw [overrideField_fixed conv sec (k1, v1) hk, getVal_cons_eq, getVal_cons_eq]
    · have h1 : (overrideField conv sec (k1, v1)).1 ≠ k := by
        rw [overrideField_fst]; exact hke
      rw [getVal_cons_ne k _ _ h1, getVal_cons_ne k (k1, v1) rest hke]
      exact ih

/-- A non-fixed field of the namespace whose name is a key of the section is
set to the section's (possibly converted) value. -/
theorem getVal_applyOverrides_override (conv : Conv) (sec : List (String × Toml))
    (k : String) (raw : Toml) (hk : k ∉ fixedNames)
    (hsec : lookupToml k sec = some raw) :
    ∀ base : Ns, (getVal k base).isSome = true →
      getVal k (applyOverrides conv sec base) = some (convertValue conv k raw) := by
  intro base
  induction base with
  | nil => intro hmem; simp [getVal] at hmem
  | cons kv rest ih =>
    intro hmem
    obtain ⟨k1, v1⟩ := kv
    rw [applyOverrides_cons]
    by_cases hke : k1 = k
    · subst hke
      rw [overrideField_hit conv sec (k1, v1) raw hk hsec, getVal_cons_eq]
    · have h1 : (overrideField conv sec (k1, v1)).1 ≠ k := by
        rw [overrideField_fst]; exact hke
      have hmem' : (getVal k rest).isSome = true := by
        rw [getVal_cons_ne k (k1, v1) rest hke] at hmem
        exact hmem
      rw [getVal_cons_ne k _ _ h1]
      exact ih hmem'

/-- C3: the effective options' fixed fields (input list, stdout flag, check
flag, diff-suppression flag) always equal the command-line-parsed values, for
every parsed document — even one whose override section names them. -/
theorem resolveOpt_fixed (conv : Conv) (path : List String) (doc : Toml)
    (base : Ns) (k : String) (hk : k ∈ fixedNames) :
    getVal k (resolveOpt conv path doc base) = getVal k base := by
  unfold resolveOpt
  cases hw : walkSection doc path with
  | none => rfl
  | some t => cases t <;> simp [getVal_applyOverrides_fixed conv _ k hk]

/-- A document whose override section (`start.sub`) tries to override the
fixed `stdout` field as well as the non-fixed `extra` field. -/
def docFixed : Toml :=
  Toml.table [("start", Toml.table [("sub",
    Toml.table [("stdout", Toml.bool true), ("extra", Toml.str "B")])])]

/-- Witness for the C3 theorem: a section naming `stdout` leaves it as parsed
from the command line. -/
theorem resolveOpt_fixed_witness :
    "stdout" ∈ fixedNames ∧
    getVal "stdout" (resolveOpt convW ["start", "sub"] docFixed nsW) =
      getVal "stdout" nsW :=
  ⟨by decide,
    resolveOpt_fixed convW ["start", "sub"] docFixed nsW "stdout" (by decide)⟩

/-- C4: for a non-fixed field name that is a key in the found override
section, the effective value is the registered conversion function applied to
the section's raw value when one was registered during flag setup, and the
raw parsed TOML value unmodified otherwise. -/
theorem resolveOpt_override_value (conv : Conv) (path : List String)
    (doc : Toml) (base : Ns) (sec : List (String × Toml)) (k : String)
    (raw : Toml) (hfound : walkSection doc path = some (Toml.table sec))
    (hk : k ∉ fixedNames) (hfield : (getVal k base).isSome = true)
    (hsec : lookupToml k sec = some raw) :
    getVal k (resolveOpt conv path doc base) =
      some (match conv k with
            | some f => f raw
            | none => Val.vtoml raw) := by
  have h := getVal_applyOverrides_override conv sec k raw hk hsec base hfield
  simpa [resolveOpt, hfound, convertValue] using h

/-- Split a character list on `.` (the test formatter's
`lambda t: tuple(t.split("."))`). -/
def splitDots : List Char → List Char → List String
  | [], acc => [String.mk acc.reverse]
  | '.' :: rest, acc => String.mk acc.reverse :: splitDots rest []
  | c :: rest, acc => splitDots rest (c :: acc)

/-- The repository test's conversion table: `tuple_magic` converts a
dot-delimited string into a tuple of strings. -/
def convMagic : Conv := fun k =>
  if k = "tuple_magic" then
    some (fun t =>
      match t with
      | Toml.str s => Val.vstrs (splitDots s.data [])
      | _ => Val.vtoml t)
  else none

/-- Document `[start.sub] tuple_magic = '1.2.3', extra = 'B'`. -/
def docOverride : Toml :=
  Toml.table [("start", Toml.table [("sub",
    Toml.table [("tuple_magic", Toml.str "1.2.3"), ("extra", Toml.str "B")])])]

/-- The base namespace extended with the test formatter's `tuple_magic`. -/
def nsMagic : Ns := nsW ++ [("tuple_magic", Val.vstrs [])]

/-- Witness for the C4 theorem: a registered conversion is applied to the
section's raw value (and, at the same section, the unconverted `extra` is
taken raw by a second application). -/
theorem resolveOpt_override_value_witness :
    (walkSection docOverride ["start", "sub"] =
        some (Toml.table [("tuple_magic", Toml.str "1.2.3"),
          ("extra", Toml.str "B")]) ∧
      (getVal "tuple_magic" nsMagic).isSome = true ∧
      lookupToml "tuple_magic" [("tuple_magic", Toml.str "1.2.3"),
        ("extra", Toml.str "B")] = some (Toml.str "1.2.3")) ∧
    getVal "tuple_magic" (resolveOpt convMagic ["start", "sub"] docOverride nsMagic) =
      some (Val.vstrs ["1", "2", "3"]) ∧
    getVal "extra" (resolveOpt convMagic ["start", "sub"] docOverride nsMagic) =
      some (Val.vtoml (Toml.str "B")) := by
  refine ⟨⟨rfl, rfl, rfl⟩, ?_, ?_⟩
  · have h := resolveOpt_override_value convMagic ["start", "sub"] docOverride
      nsMagic _ "tuple_magic" (Toml.str "1.2.3") rfl (by decide) rfl rfl
    simpa [convMagic] using h
  · have h := resolveOpt_override_value convMagic ["start", "sub"] docOverride
      nsMagic _ "extra" (Toml.str "B") rfl (by decide) rfl rfl
    simpa [convMagic] using h

/-- C10: with an empty override path the walk performs no steps, so the whole
document is the override section, and every non-fixed field named at the
document's top level is overridden by that key's value. -/
theorem resolveOpt_empty_path (conv : Conv) (kvs : List (String × Toml))
    (base : Ns) :
    resolveOpt conv [] (Toml.table kvs) base = applyOverrides conv kvs base ∧
    ∀ k raw, k ∉ fixedNames → (getVal k base).isSome = true →
      lookupToml k kvs = some raw →
      getVal k (resolveOpt conv [] (Toml.table kvs) base) =
        some (convertValue conv k raw) := by
  refine ⟨rfl, ?_⟩
  intro k raw hk hfield hsec
  have h := getVal_applyOverrides_override conv kvs k raw hk hsec base hfield
  simpa [resolveOpt, walkSection] using h

/-- Witness for the C10 theorem: a top-level `extra` key overrides the
`extra` field when the override path is empty. -/
theorem resolveOpt_empty_path_witness :
    ((getVal "extra" nsW).isSome = true ∧
      lookupToml "extra" [("extra", Toml.str "B")] = some (Toml.str "B")) ∧
    resolveOpt convW [] (Toml.table [("extra", Toml.str "B")]) nsW =
      applyOverrides convW [("extra", Toml.str "B")] nsW ∧
    getVal "extra" (resolveOpt convW [] (Toml.table [("extra", Toml.str "B")]) nsW) =
      some (convertValue convW "extra" (Toml.str "B")) := by
  refine ⟨⟨rfl, rfl⟩, (resolveOpt_empty_path convW _ nsW).1, ?_⟩
  exact (resolveOpt_empty_path convW [("extra", Toml.str "B")] nsW).2
    "extra" (Toml.str "B") (by decide) rfl rfl

/-! ## Orchestrator and reporter claims (C5, C6, C7, C9) -/

/-- Lemma: `_handle_one` reports `changed` — original text differs from formatted
text — on every control path. -/
theorem handle_one_fst (fmt : String → Ns → String)
    (udiff : List String → List String → String → List String)
    (cwd : List String) (c : Config) :
    (handle_one fmt udiff cwd c).1 = (c.toml != fmt c.toml c.opt) := by
  unfold handle_one
  dsimp only
  split
  · rfl
  · split
    · rfl
    · rfl

/-- C5: `run` exits `1` iff at least one input's formatted text differs from
its original text, and `0` iff no input's text changed (the check flag only
influences side effects, not the exit code). -/
theorem run_exit_code (fmt : String → Ns → String)
    (udiff : List String → List String → String → List String)
    (cwd : List String) (configs : List Config) :
    (run fmt udiff cwd configs = 1 ↔ ∃ c ∈ configs, fmt c.toml c.opt ≠ c.toml) ∧
    (run fmt udiff cwd configs = 0 ↔ ∀ c ∈ configs, fmt c.toml c.opt = c.toml) := by
  have key : ((configs.map fun c => (handle_one fmt udiff cwd c).1).any fun b => b) = true ↔
      ∃ c ∈ configs, fmt c.toml c.opt ≠ c.toml := by
    simp [List.any_map, Function.comp, handle_one_fst fmt udiff cwd, bne_iff_ne, ne_comm]
  unfold run
  by_cases hb : ((configs.map fun c => (handle_one fmt udiff cwd c).1).any fun b => b) = true
  · rw [if_pos hb]
    have h2 := key.mp hb
    refine ⟨by simp [h2], ?_, ?_⟩
    · intro h
      exact absurd h Nat.one_ne_zero
    · intro hall
      obtain ⟨c, hc, hne⟩ := h2
      exact absurd (hall c hc) hne
  · rw [if_neg hb]
    have h2 : ∀ c ∈ configs, fmt c.toml c.opt = c.toml := by
      by_contra hcon
      push_neg at hcon
      obtain ⟨c, hc, hne⟩ := hcon
      exact hb (key.mpr ⟨c, hc, hne⟩)
    refine ⟨⟨?_, ?_⟩, ⟨fun _ => h2, fun _ => rfl⟩⟩
    · intro h
      exact absurd h.symm Nat.one_ne_zero
    · intro hex
      exact absurd (key.mpr hex) hb

/-- C6: the reporter writes a file iff the formatted text differs from the
original, the check flag is unset, the input is a file (not the stdin
sentinel) and the stdout flag is unset; in particular `--check` never
writes. -/
theorem handle_one_write_iff (fmt : String → Ns → String)
    (udiff : List String → List String → String → List String)
    (cwd : List String) (c : Config) (p : List String) (s : String) :
    Effect.writeFile p s ∈ (handle_one fmt udiff cwd c).2 ↔
      (fmt c.toml c.opt ≠ c.toml ∧ c.check = false ∧
        c.toml_filename = some p ∧ c.stdout = false ∧
        s = fmt c.toml c.opt) := by
  obtain ⟨fn, toml, so, ck, npd, opt⟩ := c
  cases fn with
  | none => simp [handle_one]
  | some q =>
    cases so with
    | true => simp [handle_one]
    | false =>
      by_cases hch : toml = fmt toml opt
      · cases ck <;> cases npd <;>
          simp [handle_one, ← hch, eq_comm]
      · have hbne : (toml != fmt toml opt) = true := bne_iff_ne.mpr hch
        cases ck <;> cases npd <;>
          simp [handle_one, hbne, Ne.symm hch, eq_comm]

/-- C7 (amended): for a file input with the diff-suppression and stdout flags
unset, equality of the texts prints exactly `no change for <name>` with the
relativized-or-absolute name; differing texts always print the newline-joined
colorized diff (the source tests the truthiness of a generator object, which
is true even for an empty diff, so an empty diff prints an empty line) after
the conditional file write. -/
theorem handle_one_report (fmt : String → Ns → String)
    (udiff : List String → List String → String → List String)
    (cwd : List String) (c : Config) (fn : List String)
    (hf : c.toml_filename = some fn) (hs : c.stdout = false)
    (hn : c.no_print_diff = false) :
    (c.toml = fmt c.toml c.opt →
      (handle_one fmt udiff cwd c).2 =
        [Effect.printLine ("no change for " ++ relName cwd fn)]) ∧
    (c.toml ≠ fmt c.toml c.opt →
      (handle_one fmt udiff cwd c).2 =
        (if c.check then [] else [Effect.writeFile fn (fmt c.toml c.opt)]) ++
          [Effect.printLine (String.intercalate "\n" (color_diff
            (udiff (splitlines c.toml) (splitlines (fmt c.toml c.opt))
              (relName cwd fn))))]) := by
  obtain ⟨fn', toml, so, ck, npd, opt⟩ := c
  cases hf
  cases hs
  cases hn
  constructor
  · intro hch
    simp [handle_one, ← hch]
  · intro hch
    have hbne : (toml != fmt toml opt) = true := bne_iff_ne.mpr hch
    cases ck <;> simp [handle_one, hbne]

/-- Data for the C7 witness: one changed file input, check flag unset. -/
def cfgw : Config :=
  { toml_filename := some ["home", "dumb.toml"], toml := "a", stdout := false,
    check := false, no_print_diff := false, opt := [] }

/-- The formatter used by the C7 witness. -/
def fmtw : String → Ns → String := fun t _ => t ++ "x"

/-- The diff collaborator used by the C7 witness. -/
def udiffw : List String → List String → String → List String :=
  fun _ _ n => ["--- " ++ n, "+++ " ++ n, "@@ -1 +1 @@", "-a", "+ax"]

/-- Witness for the C7 theorem at a concrete changed input: the file is
rewritten and the colorized joined diff is printed. -/
theorem handle_one_report_witness :
    (cfgw.toml_filename = some ["home", "dumb.toml"] ∧ cfgw.stdout = false ∧
      cfgw.no_print_diff = false ∧ cfgw.toml ≠ fmtw cfgw.toml cfgw.opt) ∧
    (handle_one fmtw udiffw ["home"] cfgw).2 =
      [Effect.writeFile ["home", "dumb.toml"] "ax",
       Effect.printLine (String.intercalate "\n" (color_diff
         (udiffw (splitlines "a") (splitlines "ax") "dumb.toml")))] := by
  refine ⟨⟨rfl, rfl, rfl, by decide⟩, ?_⟩
  have h := (handle_one_report fmtw udiffw ["home"] cfgw ["home", "dumb.toml"]
    rfl rfl rfl).2 (by decide)
  simpa [cfgw, fmtw] using h

/-- Data for the C7 counterexample: the check flag set, the formatter only
appends a trailing newline, and the diff collaborator returns the empty diff
on equal line lists (as `difflib.unified_diff` does). -/
def cfg7 : Config :=
  { toml_filename := some ["home", "dumb.toml"], toml := "a", stdout := false,
    check := true, no_print_diff := false, opt := [] }

/-- The formatter used by the C7 counterexample. -/
def fmt7 : String → Ns → String := fun t _ => t ++ "\n"

/-- The diff collaborator used by the C7 counterexample. -/
def udiff7 : List String → List String → String → List String :=
  fun a b _ => if a = b then [] else ["@@ -1 +1 @@"]

/-- Counterexample to C7 as stated: the texts differ (only by a trailing
newline), the unified diff of the split lines is empty, yet the reporter
still prints — an empty line — because the generator's truthiness test does
not detect emptiness. -/
theorem handle_one_empty_diff_counterexample :
    cfg7.toml ≠ fmt7 cfg7.toml cfg7.opt ∧
    udiff7 (splitlines cfg7.toml) (splitlines (fmt7 cfg7.toml cfg7.opt))
      (relName ["home"] ["home", "dumb.toml"]) = [] ∧
    (handle_one fmt7 udiff7 ["home"] cfg7).2 = [Effect.printLine ""] := by
  refine ⟨by decide, rfl, rfl⟩

/-- C9: the coloring function preserves the number and order of lines, wraps
every line starting with `+` (file headers included) in green + reset, every
line starting with `-` in red + reset, and leaves other lines unchanged. -/
theorem color_diff_spec (d : List String) :
    (color_diff d).length = d.length ∧
    ∀ i : Nat, (color_diff d).getD i "" =
      (if lineStartsWith (d.getD i "") "+" then GREEN ++ d.getD i "" ++ RESET
       else if lineStartsWith (d.getD i "") "-" then RED ++ d.getD i "" ++ RESET
       else d.getD i "") := by
  constructor
  · simp [color_diff]
  · intro i
    induction d generalizing i with
    | nil => simp [color_diff]; rfl
    | cons a t ih =>
      cases i with
      | zero => simp [color_diff]
      | succ j => simpa [color_diff] using ih j

/-! ## Path validation claim (C8) -/

/-- C8: `-` maps to the stdin sentinel with no filesystem check; any other
token is resolved (absolute, default filename appended for a directory) and
then the existence, regular-file, readability and writability checks apply in
that order, each failure producing its own error, and success returns exactly
the resolved path. -/
theorem toml_path_creator_spec (fs : FS) (filename arg : String) :
    (toml_path_creator fs filename arg = Except.ok none ↔ arg = "-") ∧
    (toml_path_creator fs filename arg = Except.error PathError.pathNotFound ↔
      arg ≠ "-" ∧ fs.path_exists (resolvedPath fs filename arg) = false) ∧
    (toml_path_creator fs filename arg = Except.error PathError.notAFile ↔
      arg ≠ "-" ∧ fs.path_exists (resolvedPath fs filename arg) = true ∧
        fs.is_file (resolvedPath fs filename arg) = false) ∧
    (toml_path_creator fs filename arg = Except.error PathError.cannotRead ↔
      arg ≠ "-" ∧ fs.path_exists (resolvedPath fs filename arg) = true ∧
        fs.is_file (resolvedPath fs filename arg) = true ∧
        fs.readable (resolvedPath fs filename arg) = false) ∧
    (toml_path_creator fs filename arg = Except.error PathError.cannotWrite ↔
      arg ≠ "-" ∧ fs.path_exists (resolvedPath fs filename arg) = true ∧
        fs.is_file (resolvedPath fs filename arg) = true ∧
        fs.readable (resolvedPath fs filename arg) = true ∧
        fs.writable (resolvedPath fs filename arg) = false) ∧
    (∀ p, toml_path_creator fs filename arg = Except.ok (some p) ↔
      arg ≠ "-" ∧ fs.path_exists (resolvedPath fs filename arg) = true ∧
        fs.is_file (resolvedPath fs filename arg) = true ∧
        fs.readable (resolvedPath fs filename arg) = true ∧
        fs.writable (resolvedPath fs filename arg) = true ∧
        p = resolvedPath fs filename arg) := by
  by_cases h0 : arg = "-"
  · simp [toml_path_creator, h0]
  · cases he : fs.path_exists (resolvedPath fs filename arg) <;>
    cases hf : fs.is_file (resolvedPath fs filename arg) <;>
    cases hr : fs.readable (resolvedPath fs filename arg) <;>
    cases hw : fs.writable (resolvedPath fs filename arg) <;>
      simp [toml_path_creator, h0, he, hf, hr, hw, eq_comm]

end TomlFmt
